import Mathlib

/-!
# Verification of the vitest-testdirs file-tree engine

A shallow embedding of the core of the `vitest-testdirs` repository:

* the fixture mapping model (`DirContent` / `DirEntries`, mirroring
  `DirectoryJSON` / `DirectoryContent` from `src/types.ts`),
* the tree materializer `createFileTree` (`src/file-tree.ts`, and its later
  snapshot in `src/index.ts`),
* the filesystem snapshotter `processDirectory` / `fromFileSystem`
  (`src/file-system.ts`),
* the path/name policy `getDirNameFromTask` and the `testdir` facade sandbox
  check (`src/utils.ts`, `src/index.ts`),
* the classifier predicates of the helpers module (`isSymlink`, `isLink`,
  `hasMetadata`, `isPrimitive`).

The filesystem is modelled as a rooted tree of nodes (`FSNode`): directories
keep their entries as ordered association lists (`FSEntries`), mirroring
both Node.js `readdir` order and JavaScript object insertion order, which
the code relies on.  Paths are lists of segments relative to the process
working directory; the JavaScript code resolves every path against
`process.cwd()` and then strips that prefix again before computing directory
depths, so segments relative to the working directory capture exactly the
depths the code computes.  Filesystem errors (`ENOENT`, `EEXIST`, ...) are
modelled with `Except String`.
-/

namespace VitestTestdirs

mutual

/-- A node of the real filesystem: a regular file with (text) content, a
symbolic link storing its raw target string together with the type hint it
was created with (`"junction"` or `"file"`), or a directory with an ordered
entry list. -/
inductive FSNode where
  | file (content : String)
  | symlinkN (target : String) (hint : String)
  | dirN (entries : FSEntries)

/-- The ordered entry list of a directory (`readdir` order). -/
inductive FSEntries where
  | nil
  | cons (name : String) (node : FSNode) (rest : FSEntries)

end

/-- First entry with the given name (names are unique in any entry list
produced by the operations below, mirroring real directories). -/
def findEntry : FSEntries → String → Option FSNode
  | .nil, _ => none
  | .cons m c rest, k => if m = k then some c else findEntry rest k

/-- Replace the first entry with the given name. -/
def replaceEntry : FSEntries → String → FSNode → FSEntries
  | .nil, _, _ => .nil
  | .cons m c rest, k, x =>
    if m = k then .cons m x rest else .cons m c (replaceEntry rest k x)

/-- Concatenation of entry lists. -/
def appendFS : FSEntries → FSEntries → FSEntries
  | .nil, b => b
  | .cons n c rest, b => .cons n c (appendFS rest b)

/-- Follow a path of segments from a node. -/
def lookupNode : FSNode → List String → Option FSNode
  | n, [] => some n
  | .dirN es, k :: ks =>
    match findEntry es k with
    | some c => lookupNode c ks
    | none => none
  | _, _ :: _ => none

/-- `s.split("/")` (JavaScript `String.prototype.split` with a one-character
separator): adjacent separators yield empty segments, exactly as in
JavaScript. -/
def splitOnSlashAux : List Char → List Char → List String
  | [], acc => [⟨acc.reverse⟩]
  | c :: cs, acc =>
    if c = '/' then ⟨acc.reverse⟩ :: splitOnSlashAux cs []
    else splitOnSlashAux cs (c :: acc)

/-- String wrapper for `splitOnSlashAux`. -/
def splitOnSlash (s : String) : List String := splitOnSlashAux s.toList []

/-- Whether `pat` occurs at the head of `s`. -/
def startsWithChars : List Char → List Char → Bool
  | _, [] => true
  | [], _ :: _ => false
  | c :: cs, p :: ps => c = p && startsWithChars cs ps

/-- JavaScript `s.startsWith(pre)`. -/
def strStartsWith (s pre : String) : Bool :=
  startsWithChars s.toList pre.toList

/-- JavaScript `s.endsWith(suf)`. -/
def strEndsWith (s suf : String) : Bool :=
  startsWithChars s.toList.reverse suf.toList.reverse

/-- `path.resolve(base, rel)` restricted to relative `rel`: split `rel` on
`/`, drop empty segments, then apply each segment to the base segment list,
with `.` a no-op and `..` removing the last segment (clamped at the root,
as `path.resolve` clamps at the filesystem root). -/
def resolveSegs (base : List String) (rel : String) : List String :=
  ((splitOnSlash rel).filter (fun s => s ≠ "")).foldl
    (fun acc seg =>
      if seg = "." then acc
      else if seg = ".." then acc.dropLast
      else acc ++ [seg]) base

/-- Split a relative path string into its nonempty segments. -/
def splitPath (s : String) : List String :=
  (splitOnSlash s).filter (fun t => t ≠ "")

/-- Segment-level core of `path.normalize` for relative paths: `.` segments
are dropped and `..` segments cancel a preceding real segment, while leading
`..` segments (with nothing left to cancel) are kept. -/
def normalizeSegs (segs : List String) : List String :=
  segs.foldl
    (fun acc seg =>
      if seg = "." then acc
      else if seg = ".." then
        match acc.getLast? with
        | some l => if l = ".." then acc ++ [".."] else acc.dropLast
        | none => [".."]
      else acc ++ [seg]) []

/-- `path.normalize` for relative paths (the shape every original-path
marker stored by the snapshotter has). -/
def normalizeStr (s : String) : String :=
  let segs := normalizeSegs (splitPath s)
  if segs = [] then "." else String.intercalate "/" segs

/-- The `path.split("/").filter(Boolean).length` directory-depth count the
re-basing code uses (`src/file-tree.ts` lines 70–71). -/
def pathLevels (s : String) : Nat :=
  ((splitOnSlash s).filter (fun t => t ≠ "")).length

/-- `mkdir(path, { recursive: true })`: create every missing directory along
the path; succeeds when the target already exists as a directory, fails when
some component exists as a non-directory. -/
def mkdirp : FSNode → List String → Except String FSNode
  | .dirN es, [] => .ok (.dirN es)
  | .file _, [] => .error "EEXIST: mkdir target exists as a file"
  | .symlinkN _ _, [] => .error "EEXIST: mkdir target exists as a symlink"
  | .dirN es, k :: ks =>
    match findEntry es k with
    | some c => do
      let c' ← mkdirp c ks
      .ok (.dirN (replaceEntry es k c'))
    | none => do
      let c' ← mkdirp (.dirN .nil) ks
      .ok (.dirN (appendFS es (.cons k c' .nil)))
  | .file _, _ :: _ => .error "ENOTDIR: path component is a file"
  | .symlinkN _ _, _ :: _ => .error "ENOTDIR: path component is a symlink"

/-- `writeFile(path, data)`: the parent chain must already exist; an
existing file at the path is overwritten, an existing directory is an
error. -/
def writeFileAt : FSNode → List String → String → Except String FSNode
  | _, [], _ => .error "EISDIR: cannot write to the root"
  | .dirN es, [k], c =>
    match findEntry es k with
    | some (.dirN _) => .error "EISDIR: target is a directory"
    | some _ => .ok (.dirN (replaceEntry es k (.file c)))
    | none => .ok (.dirN (appendFS es (.cons k (.file c) .nil)))
  | .dirN es, k :: k' :: ks, c =>
    match findEntry es k with
    | some child => do
      let child' ← writeFileAt child (k' :: ks) c
      .ok (.dirN (replaceEntry es k child'))
    | none => .error "ENOENT: no such directory"
  | .file _, _ :: _, _ => .error "ENOTDIR: path component is a file"
  | .symlinkN _ _, _ :: _, _ => .error "ENOTDIR: path component is a symlink"

/-- Add a fresh entry at a path whose parent chain already exists (the shape
shared by `link` and `symlink`, which never create parent directories and
fail with `EEXIST` when the path is taken). -/
def addEntryAt : FSNode → List String → FSNode → Except String FSNode
  | _, [], _ => .error "EEXIST: root already exists"
  | .dirN es, [k], x =>
    match findEntry es k with
    | some _ => .error "EEXIST: path already exists"
    | none => .ok (.dirN (appendFS es (.cons k x .nil)))
  | .dirN es, k :: k' :: ks, x =>
    match findEntry es k with
    | some child => do
      let child' ← addEntryAt child (k' :: ks) x
      .ok (.dirN (replaceEntry es k child'))
    | none => .error "ENOENT: no such directory"
  | .file _, _ :: _, _ => .error "ENOTDIR: path component is a file"
  | .symlinkN _ _, _ :: _, _ => .error "ENOTDIR: path component is a symlink"

/-- `link(existingPath, newPath)`: hard links require an existing regular
file target and copy its content into the new directory entry. -/
def linkAt (w : FSNode) (oldPath newPath : List String) : Except String FSNode :=
  match lookupNode w oldPath with
  | some (.file c) => addEntryAt w newPath (.file c)
  | some _ => .error "EPERM: hard link target is not a regular file"
  | none => .error "ENOENT: hard link target does not exist"

/-- `symlink(target, path, hint)`: records the raw target string and the
type hint; the parent chain must already exist. -/
def symlinkAt (w : FSNode) (path : List String) (target hint : String) :
    Except String FSNode :=
  addEntryAt w path (.symlinkN target hint)

/-- `utils.isDirectory` / `isDirectorySync`: `stat(path).isDirectory()`,
with every error mapped to `false`. -/
def isDirectoryAt (w : FSNode) (p : List String) : Bool :=
  match lookupNode w p with
  | some (.dirN _) => true
  | _ => false

/-- `isDir(abs, target)` from `src/file-tree.ts` lines 221–228:
`statSync(resolve(dirname(abs), target)).isDirectory()`, with every error
mapped to `false`. -/
def isDir (w : FSNode) (abs : List String) (target : String) : Bool :=
  isDirectoryAt w (resolveSegs abs.dropLast target)

/-- The symlink type-hint expression of the later `createFileTree` snapshot
(`src/index.ts` line 523): `await isDirectory(filename) ? "junction" :
"file"` — it stats the *link path itself*, not the link target. -/
def symlinkTypeHintIdx (w : FSNode) (filename : List String) : String :=
  if isDirectoryAt w filename then "junction" else "file"

/-! ## The fixture mapping model (`DirectoryJSON`)

A mapping is an ordered association list of string keys to contents,
mirroring JavaScript object insertion order (which `for...in` follows for
string keys), plus the hidden symbol-keyed original-path marker
(`FIXTURE_ORIGINAL_PATH`), carried out of band as an `Option String` since
`for...in` never enumerates symbol keys.  The modelled contents are string
file content, symlink markers, hard-link markers and nested mappings; the
remaining primitive contents (numbers, booleans, byte buffers, ...) and the
metadata wrapper of the later snapshot are not exercised by any claim and
are outside the model. -/

mutual

/-- A `DirectoryContent` value of a fixture mapping. -/
inductive DirContent where
  | str (s : String)
  | symlinkM (p : String)
  | linkM (p : String)
  | dirM (orig : Option String) (entries : DirEntries)

/-- The ordered entries of a fixture mapping (JavaScript object insertion
order). -/
inductive DirEntries where
  | nil
  | cons (name : String) (content : DirContent) (rest : DirEntries)

end

/-- The `symlink(path)` constructor from the helpers module: tags the value
and stores `normalize(path)`. -/
def symlink (path : String) : DirContent := .symlinkM (normalizeStr path)

/-- The `link(path)` constructor from the helpers module: tags the value and
stores `normalize(path)`. -/
def link (path : String) : DirContent := .linkM (normalizeStr path)

/-- First mapping entry with the given key. -/
def findEntryD : DirEntries → String → Option DirContent
  | .nil, _ => none
  | .cons m c rest, k => if m = k then some c else findEntryD rest k

/-- Whether a mapping has an entry with the given key. -/
def hasNameD (ts : DirEntries) (n : String) : Bool := (findEntryD ts n).isSome

/-- Concatenation of mapping entry lists. -/
def appendD : DirEntries → DirEntries → DirEntries
  | .nil, b => b
  | .cons n c rest, b => .cons n c (appendD rest b)

/-- `"../".repeat(n)`. -/
def upsRepeat (n : Nat) : String := String.join (List.replicate n "../")

/-- JavaScript `s.replace(pat, rep)` with a string pattern: replace the
first occurrence only. -/
def replaceFirstChars : List Char → List Char → List Char → List Char
  | [], _, _ => []
  | c :: cs, pat, rep =>
    if startsWithChars (c :: cs) pat then rep ++ (c :: cs).drop pat.length
    else c :: replaceFirstChars cs pat rep

/-- JavaScript `s.replace(pat, rep)` (first occurrence, string pattern). -/
def replaceFirst (s pat rep : String) : String :=
  ⟨replaceFirstChars s.toList pat.toList rep.toList⟩

/-- The symlink re-basing computation of `createFileTree`
(`src/file-tree.ts` lines 70–79): compare the depth of the current write
location with the depth of the captured original location; when the current
location is shallower, strip `"../".repeat(diff)` (first occurrence) from
the target, and when it is deeper, prepend `"../".repeat(diff)`. -/
def rebaseSymlinkTarget (pathLvls originalLvls : Nat) (dataPath : String) : String :=
  if pathLvls < originalLvls then
    replaceFirst dataPath (upsRepeat (originalLvls - pathLvls)) ""
  else if pathLvls > originalLvls then
    upsRepeat (pathLvls - originalLvls) ++ dataPath
  else dataPath

/-- `createFileTree(path, files)` from `src/file-tree.ts` (the sync variant
`createFileTreeSync` is textually identical modulo `await` and is covered by
the same embedding).  The world (rooted at the process working directory) is
threaded explicitly; the returned mapping reflects the in-place mutation the
code performs on symlink markers (`data.path = ...`) during re-basing.

`path` is the current write location as normalized segments relative to the
working directory, so `path.length` is exactly the
`normalize(path.replace(cwd + "/", "")).split("/").filter(Boolean).length`
depth count of the source.  A key containing separators resolves through
`resolveSegs`, as `resolve(path, filename)` does. -/
def createFileTree : FSNode → List String → Option String → DirEntries →
    Except String (FSNode × DirEntries)
  | w, _, _, .nil => .ok (w, .nil)
  | w, path, orig, .cons name data rest =>
    let filename := resolveSegs path name
    match data with
    | .linkM p => do
      let w1 ← linkAt w (resolveSegs filename.dropLast p) filename
      let r ← createFileTree w1 path orig rest
      .ok (r.1, .cons name (.linkM p) r.2)
    | .symlinkM p => do
      let p1 :=
        match orig with
        | some o => rebaseSymlinkTarget path.length (pathLevels (normalizeStr o)) p
        | none => p
      let w1 ← symlinkAt w filename p1 (if isDir w filename p1 then "junction" else "file")
      let r ← createFileTree w1 path orig rest
      .ok (r.1, .cons name (.symlinkM p1) r.2)
    | .str s => do
      let w1 ← mkdirp w filename.dropLast
      let w2 ← writeFileAt w1 filename s
      let r ← createFileTree w2 path orig rest
      .ok (r.1, .cons name (.str s) r.2)
    | .dirM subOrig subEntries => do
      let w1 ← mkdirp w filename
      let rsub ← createFileTree w1 filename subOrig subEntries
      let r ← createFileTree rsub.1 path orig rest
      .ok (r.1, .cons name (.dirM subOrig rsub.2) r.2)

/-! ## The snapshotter (`src/file-system.ts`) -/

/-- The entry loop of `processDirectory` / `processDirectorySync`: walk the
directory entries in `readdir` order, skip ignored names, recurse into
subdirectories (attaching each level's original-path marker), store symlink
markers for symbolic links (the default `followLinks: true` configuration)
and file contents for regular files (the default utf-8 text encoding). -/
def processEntries (path : String) (ignore : List String) :
    FSEntries → DirEntries
  | .nil => .nil
  | .cons n node rest =>
    if ignore.contains n then processEntries path ignore rest
    else
      .cons n
        (match node with
          | .dirN es =>
            .dirM (some (normalizeStr (path ++ "/" ++ n)))
              (processEntries (path ++ "/" ++ n) ignore es)
          | .symlinkN t _ => symlink t
          | .file c => .str c)
        (processEntries path ignore rest)

/-- `processDirectory(path, options)`: the produced mapping, as its hidden
original-path marker (`normalize(path)`) paired with its ordered entries. -/
def processDirectory (path : String) (ignore : List String)
    (entries : FSEntries) : Option String × DirEntries :=
  (some (normalizeStr path), processEntries path ignore entries)

/-- Override pass of the `{ ...files, ...extras }` spread: keys of the base
keep their position, with values taken from `extras` on collision. -/
def overrideFrom (extras : DirEntries) : DirEntries → DirEntries
  | .nil => .nil
  | .cons n c rest =>
    match findEntryD extras n with
    | some v => .cons n v (overrideFrom extras rest)
    | none => .cons n c (overrideFrom extras rest)

/-- Keys of `extras` not present in the base, in `extras` order. -/
def removeKeysOf (base : DirEntries) : DirEntries → DirEntries
  | .nil => .nil
  | .cons n c rest =>
    match findEntryD base n with
    | some _ => removeKeysOf base rest
    | none => .cons n c (removeKeysOf base rest)

/-- The `{ ...files, ...extras }` spread merge at the end of
`fromFileSystem`. -/
def mergeSpread (base extras : DirEntries) : DirEntries :=
  appendD (overrideFrom extras base) (removeKeysOf base extras)

/-- `fromFileSystem(path, options)` (and the textually identical
`fromFileSystemSync`): return the empty mapping when the path does not exist
or is not a directory, otherwise snapshot it and spread in the extras. -/
def fromFileSystem (w : FSNode) (path : String) (ignore : List String)
    (extras : DirEntries) : Option String × DirEntries :=
  match lookupNode w (resolveSegs [] path) with
  | some (.dirN es) =>
    let files := processDirectory path ignore es
    (files.1, mergeSpread files.2 extras)
  | _ => (none, .nil)

/-! ## The `testdir` facade (`src/index.ts`) -/

/-- The fixed sandbox base directory constant. -/
def BASE_DIR : String := ".vitest-testdirs"

/-- The target-directory computation of `testdir`:
`normalize(join(BASE_DIR, dirname))`. -/
def testdirDirname (dirname : String) : String :=
  normalizeStr (BASE_DIR ++ "/" ++ dirname)

/-- The core of `testdir` / `testdirSync` after the vitest-context check:
compute the target directory, enforce the sandbox check (`startsWith` on
`BASE_DIR` unless `allowOutside`), then materialize the mapping and return
the created path.  The check runs before `createFileTree`, so a sandbox
violation errors before any filesystem mutation. -/
def testdir (w : FSNode) (orig : Option String) (files : DirEntries)
    (dirname : String) (allowOutside : Bool) : Except String (String × FSNode) :=
  let d := testdirDirname dirname
  if !allowOutside && !(strStartsWith d BASE_DIR) then
    .error ("The directory name must start with " ++ BASE_DIR)
  else do
    let r ← createFileTree w (splitPath d) orig files
    .ok (d, r.1)

/-! ## The path/name policy (`getDirNameFromTask`, `src/utils.ts`) -/

/-- Membership in the character class kept by `DIR_REGEX = /[^\w\-]+/g`:
JavaScript `\w` is `[A-Za-z0-9_]`, plus the explicitly allowed hyphen. -/
def isWordOrHyphen (c : Char) : Bool :=
  (97 ≤ c.toNat && c.toNat ≤ 122) || (65 ≤ c.toNat && c.toNat ≤ 90) ||
    (48 ≤ c.toNat && c.toNat ≤ 57) || c = '_' || c = '-'

/-- `s.replace(DIR_REGEX, "-")`: every maximal run of characters outside
`[A-Za-z0-9_-]` becomes a single hyphen.  The flag records whether the scan
is inside such a run (the hyphen for the run has already been emitted). -/
def replaceNonWordAux (inRun : Bool) : List Char → List Char
  | [] => []
  | c :: rest =>
    if isWordOrHyphen c then c :: replaceNonWordAux false rest
    else if inRun then replaceNonWordAux true rest
    else '-' :: replaceNonWordAux true rest

/-- String wrapper for `replaceNonWordAux`. -/
def replaceNonWord (s : String) : String := ⟨replaceNonWordAux false s.toList⟩

/-- The hyphen-collapsing replacement (regex `-{2,}`, global): every run of
two or more hyphens becomes a single hyphen (a run of one is unchanged,
which the single-pass scan below also produces). -/
def collapseHyphensAux (prevHyphen : Bool) : List Char → List Char
  | [] => []
  | c :: rest =>
    if c = '-' then
      if prevHyphen then collapseHyphensAux true rest
      else '-' :: collapseHyphensAux true rest
    else c :: collapseHyphensAux false rest

/-- String wrapper for `collapseHyphensAux`. -/
def collapseHyphens (s : String) : String := ⟨collapseHyphensAux false s.toList⟩

/-- The trailing-hyphen trim (regex `-+$`): drop trailing hyphens. -/
def trimTrailingHyphens (s : String) : String :=
  ⟨(s.toList.reverse.dropWhile (fun c => c = '-')).reverse⟩

/-- `s.replace` of the anchored `.test.ts` suffix pattern. -/
def stripTestTs (s : String) : String :=
  if strEndsWith s ".test.ts" then s.dropRight 8 else s

/-- `s.split("/").pop()`. -/
def lastSegment (s : String) : String := (splitOnSlash s).getLast!

/-- `getDirNameFromTask(task)` (`src/utils.ts` lines 368–383; the test-case
branch of `createDirnameFromTask` is the same computation).  `fileName` is
`task.file?.name` (`none` models an absent file, and the empty string is
falsy, giving `"unnamed"`); `suiteName` is `task.suite?.name` for a present
suite (`none` models `!task.suite`; an empty suite name is falsy and takes
the hyphen-only branch, which coincides with the no-suite template). -/
def getDirNameFromTask (fileName : Option String) (suiteName : Option String)
    (name : String) : String :=
  let rawFile := match fileName with
    | none => "unnamed"
    | some f => if f = "" then "unnamed" else f
  let fn := replaceNonWord (stripTestTs (lastSegment rawFile))
  let nm := if name = "" then "unnamed test" else name
  let dirName := match suiteName with
    | none => "vitest-" ++ fn ++ "-" ++ replaceNonWord nm
    | some s =>
      if s = "" then "vitest-" ++ fn ++ "-" ++ replaceNonWord nm
      else "vitest-" ++ fn ++ "-" ++ replaceNonWord s ++ "-" ++ replaceNonWord nm
  trimTrailingHyphens (collapseHyphens dirName)

/-! ## The classifier predicates of the helpers module

The predicates take `unknown`, so the model covers the JavaScript value
universe they can observe: primitives, the two process-wide tag symbols
(distinct constructors, mirroring symbol identity), other symbols, byte
buffers, arrays, `null`, and plain objects, where a plain object records the
values it holds (if any) at the two tag symbol keys and the metadata symbol
key, plus its `path` property.  Arrays and byte buffers carry no symbol
properties in the model (none are ever produced by the library). -/
inductive JSValue where
  | nullV
  | undefV
  | boolV (b : Bool)
  | numV (n : Int)
  | strV (s : String)
  | bigintV (n : Int)
  | symlinkTagSym
  | linkTagSym
  | otherSym (name : String)
  | uint8V (bytes : List Nat)
  | arrV (xs : List JSValue)
  | objV (symlinkProp linkProp metadataProp : Option JSValue) (pathProp : Option String)

/-- `typeof value === "object"` (true for `null`, arrays, byte buffers and
plain objects). -/
def typeofIsObject : JSValue → Bool
  | .nullV | .uint8V _ | .arrV _ | .objV _ _ _ _ => true
  | _ => false

/-- `value === null`. -/
def isNull : JSValue → Bool
  | .nullV => true
  | _ => false

/-- `value[FIXTURE_TYPE_SYMLINK_SYMBOL]` (`undefined` when absent, and for
values that carry no symbol-keyed properties). -/
def getSymlinkProp : JSValue → JSValue
  | .objV s _ _ _ => s.getD .undefV
  | _ => .undefV

/-- `value[FIXTURE_TYPE_LINK_SYMBOL]`. -/
def getLinkProp : JSValue → JSValue
  | .objV _ l _ _ => l.getD .undefV
  | _ => .undefV

/-- `value[FIXTURE_METADATA_SYMBOL]`. -/
def getMetadataProp : JSValue → JSValue
  | .objV _ _ m _ => m.getD .undefV
  | _ => .undefV

/-- `x === FIXTURE_TYPE_SYMLINK_SYMBOL` (symbol identity). -/
def isTagSymlink : JSValue → Bool
  | .symlinkTagSym => true
  | _ => false

/-- `x === FIXTURE_TYPE_LINK_SYMBOL` (symbol identity). -/
def isTagLink : JSValue → Bool
  | .linkTagSym => true
  | _ => false

/-- JavaScript loose `x != null`: false exactly for `null` and
`undefined`. -/
def looseNeqNull : JSValue → Bool
  | .nullV | .undefV => false
  | _ => true

/-- `isSymlink(value)` from the helpers module: `typeof value === "object"
&& value !== null && value[FIXTURE_TYPE_SYMLINK_SYMBOL] ===
FIXTURE_TYPE_SYMLINK_SYMBOL`. -/
def isSymlinkV (v : JSValue) : Bool :=
  typeofIsObject v && !(isNull v) && isTagSymlink (getSymlinkProp v)

/-- `isLink(value)` from the helpers module. -/
def isLinkV (v : JSValue) : Bool :=
  typeofIsObject v && !(isNull v) && isTagLink (getLinkProp v)

/-- `hasMetadata(value)` from the helpers module: `typeof value === "object"
&& value !== null && value[FIXTURE_METADATA_SYMBOL] != null`. -/
def hasMetadataV (v : JSValue) : Bool :=
  typeofIsObject v && !(isNull v) && looseNeqNull (getMetadataProp v)

/-- `isPrimitive(data)` from the helpers module: the `typeof` chain plus
`null`, `undefined` and `instanceof Uint8Array`. -/
def isPrimitiveV : JSValue → Bool
  | .strV _ | .numV _ | .boolV _ | .nullV | .undefV | .bigintV _
  | .symlinkTagSym | .linkTagSym | .otherSym _ | .uint8V _ => true
  | .arrV _ | .objV _ _ _ _ => false

/-- The value built by the `symlink(path)` constructor, as seen by the
classifier predicates. -/
def symlinkJS (path : String) : JSValue :=
  .objV (some .symlinkTagSym) none none (some (normalizeStr path))

/-- The value built by the `link(path)` constructor, as seen by the
classifier predicates. -/
def linkJS (path : String) : JSValue :=
  .objV none (some .linkTagSym) none (some (normalizeStr path))

/-! ## Auxiliary semantic notions used by the theorems -/

/-- The spec's sandbox property, stated from the spec's words for comparison
with the code's `startsWith` check: the resolved target is the base
directory itself or lies strictly below it. -/
def isDescendantOfBase (p : String) : Bool :=
  p == BASE_DIR || strStartsWith p (BASE_DIR ++ "/")

/-- No node of the mapping carries the hidden original-path marker. -/
def noMarkers : DirEntries → Bool
  | .nil => true
  | .cons _ data rest =>
    (match data with
      | .dirM orig sub => orig == none && noMarkers sub
      | _ => true) && noMarkers rest

/-- The mapping contains only plain file content and nested mappings (no
symlink or hard-link markers) — the domain of the round-trip property. -/
def filesOnlyMap : DirEntries → Bool
  | .nil => true
  | .cons _ data rest =>
    (match data with
      | .str _ => true
      | .dirM _ sub => filesOnlyMap sub
      | _ => false) && filesOnlyMap rest

/-- The filesystem tree contains only regular files and directories. -/
def filesOnlyFS : FSEntries → Bool
  | .nil => true
  | .cons _ node rest =>
    (match node with
      | .file _ => true
      | .dirN sub => filesOnlyFS sub
      | .symlinkN _ _ => false) && filesOnlyFS rest

/-- An entry name as `readdir` produces them: a single path segment, so
`resolve` appends it as one segment (no separators, not a dot segment). -/
def validName (n : String) : Bool :=
  (splitOnSlash n == [n]) && n != "" && n != "." && n != ".."

/-- Valid, duplicate-free entry names at every level of a mapping. -/
def validNamesMap : DirEntries → Bool
  | .nil => true
  | .cons n data rest =>
    validName n && (findEntryD rest n).isNone &&
      (match data with
        | .dirM _ sub => validNamesMap sub
        | _ => true) && validNamesMap rest

/-- Valid, duplicate-free entry names at every level of a filesystem tree
(every real directory satisfies this). -/
def validNamesFS : FSEntries → Bool
  | .nil => true
  | .cons n node rest =>
    validName n && (findEntry rest n).isNone &&
      (match node with
        | .dirN sub => validNamesFS sub
        | _ => true) && validNamesFS rest

/-- The tree a files-only mapping denotes (the value given to marker
entries is irrelevant: the files-only hypothesis excludes them). -/
def buildEntries : DirEntries → FSEntries
  | .nil => .nil
  | .cons n data rest =>
    .cons n
      (match data with
        | .str s => .file s
        | .dirM _ sub => .dirN (buildEntries sub)
        | .symlinkM _ => .file ""
        | .linkM _ => .file "")
      (buildEntries rest)

mutual

/-- Replace the node at an existing path (identity off the path); the
functional update used to state how the materializer edits the world. -/
def setAt : FSNode → List String → FSNode → FSNode
  | _, [], x => x
  | .dirN es, k :: ks, x => .dirN (setAtEntries es k ks x)
  | n, _ :: _, _ => n
termination_by _ p _ => (p.length, 0)

/-- Entry-list worker of `setAt` (first matching entry). -/
def setAtEntries : FSEntries → String → List String → FSNode → FSEntries
  | .nil, _, _, _ => .nil
  | .cons m c rest, k, ks, x =>
    if m = k then .cons m (setAt c ks x) rest
    else .cons m c (setAtEntries rest k ks x)
termination_by es _ ks _ => (ks.length, sizeOf es)

end

/-! ## General lemmas -/

theorem exceptBindOk {α β : Type} (a : α) (f : α → Except String β) :
    (Except.ok a >>= f) = f a := rfl

theorem exceptBindErr {α β : Type} (e : String) (f : α → Except String β) :
    ((Except.error e : Except String α) >>= f) = Except.error e := rfl

theorem createFileTree_nil (w : FSNode) (p : List String) (orig : Option String) :
    createFileTree w p orig .nil = .ok (w, .nil) := rfl

theorem findEntry_append_self : ∀ (es : FSEntries) (k : String) (x : FSNode),
    findEntry es k = none → findEntry (appendFS es (.cons k x .nil)) k = some x
  | .nil, k, x, _ => by simp [appendFS, findEntry]
  | .cons m c rest, k, x, h => by
    by_cases hmk : m = k
    · simp [findEntry, hmk] at h
    · simp only [findEntry, hmk, if_false, appendFS, if_neg] at h ⊢
      exact findEntry_append_self rest k x h

theorem findEntry_replaceEntry_self : ∀ (es : FSEntries) (k : String) (c x : FSNode),
    findEntry es k = some c → findEntry (replaceEntry es k x) k = some x
  | .nil, k, c, x, h => by simp [findEntry] at h
  | .cons m c0 rest, k, c, x, h => by
    by_cases hmk : m = k
    · simp [findEntry, replaceEntry, hmk]
    · simp only [findEntry, replaceEntry, hmk, if_false, if_neg] at h ⊢
      exact findEntry_replaceEntry_self rest k c x h

theorem addEntryAt_lookup : ∀ (w : FSNode) (q : List String) (x w1 : FSNode),
    addEntryAt w q x = .ok w1 → lookupNode w1 q = some x
  | _, [], x, w1, h => by simp [addEntryAt] at h
  | .file _, _ :: _, x, w1, h => by simp [addEntryAt] at h
  | .symlinkN _ _, _ :: _, x, w1, h => by simp [addEntryAt] at h
  | .dirN es, [k], x, w1, h => by
    cases hf : findEntry es k with
    | some c => simp [addEntryAt, hf] at h
    | none =>
      simp only [addEntryAt, hf] at h
      cases h
      simp [lookupNode, findEntry_append_self es k x hf]
  | .dirN es, k :: k' :: ks, x, w1, h => by
    cases hf : findEntry es k with
    | none => simp [addEntryAt, hf] at h
    | some child =>
      simp only [addEntryAt, hf] at h
      cases hrec : addEntryAt child (k' :: ks) x with
      | error e => rw [hrec, exceptBindErr] at h; cases h
      | ok child' =>
        rw [hrec, exceptBindOk] at h
        cases h
        simp only [lookupNode, findEntry_replaceEntry_self es k child child' hf]
        exact addEntryAt_lookup child (k' :: ks) x child' hrec

theorem startsWithChars_append : ∀ (a b : List Char), startsWithChars (a ++ b) a = true
  | [], b => by simp [startsWithChars]
  | c :: cs, b => by
    simp [List.cons_append, startsWithChars, startsWithChars_append cs b]

theorem replaceFirstChars_append (pa rest : List Char) :
    replaceFirstChars (pa ++ rest) pa [] = rest := by
  cases hpr : pa ++ rest with
  | nil =>
    obtain ⟨hpa, hrest⟩ := List.append_eq_nil.mp hpr
    subst hpa; subst hrest; rfl
  | cons c cs =>
    have hsw : startsWithChars (c :: cs) pa = true := by
      rw [← hpr]; exact startsWithChars_append pa rest
    simp only [replaceFirstChars, hsw, if_true, List.nil_append]
    rw [← hpr, List.drop_left]

theorem replaceFirst_append (a b : String) : replaceFirst (a ++ b) a "" = b := by
  unfold replaceFirst
  show String.mk (replaceFirstChars (a ++ b).data a.data []) = b
  rw [String.data_append, replaceFirstChars_append]

/-! ## Claim C7 -/

/-- C7: for every path that does not exist or exists but is not a
directory, `fromFileSystem` (and the identical `fromFileSystemSync`)
returns the empty mapping and does not throw — regardless of the ignore
list and of any `extras`, which the early return discards. -/
theorem c7_snapshot_nondir_empty (w : FSNode) (path : String)
    (ignore : List String) (extras : DirEntries)
    (h : isDirectoryAt w (resolveSegs [] path) = false) :
    fromFileSystem w path ignore extras = (none, .nil) := by
  cases hl : lookupNode w (resolveSegs [] path) with
  | none => simp [fromFileSystem, hl]
  | some n =>
    cases n with
    | file c => simp [fromFileSystem, hl]
    | symlinkN t ht => simp [fromFileSystem, hl]
    | dirN es =>
      unfold isDirectoryAt at h
      rw [hl] at h
      simp at h

theorem c7_snapshot_nondir_empty_witness :
    isDirectoryAt (.dirN (.cons "f" (.file "x") .nil)) (resolveSegs [] "missing") = false ∧
    fromFileSystem (.dirN (.cons "f" (.file "x") .nil)) "missing" []
      (.cons "extra.txt" (.str "v") .nil) = (none, .nil) ∧
    isDirectoryAt (.dirN (.cons "f" (.file "x") .nil)) (resolveSegs [] "f") = false ∧
    fromFileSystem (.dirN (.cons "f" (.file "x") .nil)) "f" [] .nil = (none, .nil) :=
  ⟨rfl,
   c7_snapshot_nondir_empty (.dirN (.cons "f" (.file "x") .nil)) "missing" []
     (.cons "extra.txt" (.str "v") .nil) rfl,
   rfl,
   c7_snapshot_nondir_empty (.dirN (.cons "f" (.file "x") .nil)) "f" [] .nil rfl⟩

/-! ## Claim C4 -/

/-- C4: the hard-link marker's path is resolved against the parent
directory of the new link file, and entries are processed in mapping
insertion order, so `{ "a.txt": "hi", "b.txt": link("a.txt") }` materializes
`b.txt` with content `"hi"` (the target written by the earlier sibling
exists when the link is created).  Stated by evaluating `createFileTree` on
that mapping: both `a.txt` and `b.txt` hold `"hi"` afterwards, and the
returned world is exactly the expected tree. -/
theorem c4_hardlink_order :
    createFileTree (.dirN .nil) [".vitest-testdirs", "x"] none
      (.cons "a.txt" (.str "hi") (.cons "b.txt" (.linkM "a.txt") .nil)) =
    .ok (.dirN (.cons ".vitest-testdirs" (.dirN (.cons "x" (.dirN
        (.cons "a.txt" (.file "hi") (.cons "b.txt" (.file "hi") .nil))) .nil)) .nil),
      .cons "a.txt" (.str "hi") (.cons "b.txt" (.linkM "a.txt") .nil)) := rfl

/-! ## Claim C5 -/

/-- C5 counterexample: with test file name `utils.test.ts`, an enclosing
suite named `utils`, and the test name from the claim, the code derives
`vitest-utils-utils-should-replace-non-alphanumeric-characters-with` — the
file segment and the suite segment both appear — which differs from the
claimed `vitest-utils-should-replace-non-alphanumeric-characters-with`. -/
theorem c5_counterexample :
    getDirNameFromTask (some "utils.test.ts") (some "utils")
        "should replace ........ æøå non-alphanumeric characters with \x27-\x27" =
      "vitest-utils-utils-should-replace-non-alphanumeric-characters-with" ∧
    "vitest-utils-utils-should-replace-non-alphanumeric-characters-with" ≠
      "vitest-utils-should-replace-non-alphanumeric-characters-with" :=
  ⟨rfl, by decide⟩

/-- C5 (amended): directory-name derivation is a pure function of test
identity; for test file name `utils.test.ts` and *no enclosing suite* (the
configuration the repository's own tests pin), the derived name is exactly
`vitest-utils-should-replace-non-alphanumeric-characters-with`; with an
enclosing suite named `utils` the suite segment appears as well. -/
theorem c5_dirname_derivation :
    getDirNameFromTask (some "utils.test.ts") none
        "should replace ........ æøå non-alphanumeric characters with \x27-\x27" =
      "vitest-utils-should-replace-non-alphanumeric-characters-with" ∧
    getDirNameFromTask (some "utils.test.ts") (some "utils")
        "should replace ........ æøå non-alphanumeric characters with \x27-\x27" =
      "vitest-utils-utils-should-replace-non-alphanumeric-characters-with" :=
  ⟨rfl, rfl⟩

/-! ## Claim C10 -/

/-- C10: materializing the empty mapping performs no filesystem operation:
`createFileTree` returns the world unchanged for every world, path and
marker, so `testdir({})` (when the sandbox check passes) returns a path
that does not exist on disk — the returned world is the input world and the
returned path is absent from it. -/
theorem c10_empty_mapping_noop :
    (∀ (w : FSNode) (p : List String) (orig : Option String),
      createFileTree w p orig .nil = .ok (w, .nil)) ∧
    ∀ (w : FSNode) (dn : String),
      strStartsWith (testdirDirname dn) BASE_DIR = true →
      lookupNode w (splitPath (testdirDirname dn)) = none →
      testdir w none .nil dn false = .ok (testdirDirname dn, w) ∧
        lookupNode w (splitPath (testdirDirname dn)) = none := by
  refine ⟨fun w p orig => rfl, fun w dn hs hl => ⟨?_, hl⟩⟩
  simp only [testdir, hs, Bool.not_true, Bool.not_false, Bool.true_and, Bool.and_false,
    Bool.false_and, if_false, Bool.and_self]
  rfl

theorem c10_empty_mapping_noop_witness :
    strStartsWith (testdirDirname "demo") BASE_DIR = true ∧
    lookupNode (.dirN .nil) (splitPath (testdirDirname "demo")) = none ∧
    testdir (.dirN .nil) none .nil "demo" false =
      .ok (testdirDirname "demo", .dirN .nil) :=
  ⟨rfl, rfl, (c10_empty_mapping_noop.2 (.dirN .nil) "demo" rfl rfl).1⟩

/-! ## Claim C3 -/

/-- C3 counterexample: `dirname: "../.vitest-testdirs-evil"` resolves to
`.vitest-testdirs-evil`, which is *not* a descendant of the base directory,
yet `testdir` with default options does not throw — it succeeds and creates
the tree outside the sandbox, because the check is a string-prefix test and
`.vitest-testdirs-evil` starts with the characters of `.vitest-testdirs`.
This refutes the claim's universal "every non-descendant dirname throws". -/
theorem c3_counterexample :
    testdirDirname "../.vitest-testdirs-evil" = ".vitest-testdirs-evil" ∧
    isDescendantOfBase ".vitest-testdirs-evil" = false ∧
    testdir (.dirN .nil) none (.cons "f.txt" (.str "x") .nil)
        "../.vitest-testdirs-evil" false =
      .ok (".vitest-testdirs-evil",
        .dirN (.cons ".vitest-testdirs-evil"
          (.dirN (.cons "f.txt" (.file "x") .nil)) .nil)) :=
  ⟨rfl, rfl, rfl⟩

/-- C3 (amended): the sandbox check of `testdir` / `testdirSync` is a
string-prefix test on `normalize(join(BASE_DIR, dirname))`: with
`allowOutside` unset, the call errors (before any filesystem mutation — the
world is not consulted) exactly when the resolved dirname does not start
with `.vitest-testdirs`; in particular `dirname: "../escape"` errors, and
the same call with `allowOutside: true` succeeds and creates the directory
outside the base.  Resolved names outside the base that share its string
prefix (see the counterexample) are not rejected. -/
theorem c3_sandbox_prefix_check :
    (∀ (w : FSNode) (orig : Option String) (files : DirEntries) (dn : String),
      strStartsWith (testdirDirname dn) BASE_DIR = false →
      testdir w orig files dn false =
        .error ("The directory name must start with " ++ BASE_DIR)) ∧
    testdir (.dirN .nil) none (.cons "f.txt" (.str "x") .nil) "../escape" false =
      .error ("The directory name must start with " ++ BASE_DIR) ∧
    testdir (.dirN .nil) none (.cons "f.txt" (.str "x") .nil) "../escape" true =
      .ok ("escape", .dirN (.cons "escape" (.dirN (.cons "f.txt" (.file "x") .nil)) .nil)) ∧
    isDescendantOfBase "escape" = false := by
  refine ⟨fun w orig files dn hs => ?_, rfl, rfl, rfl⟩
  simp only [testdir, hs, Bool.not_false, Bool.and_self, if_true, Bool.not_true, Bool.and_true]

theorem c3_sandbox_prefix_check_witness :
    strStartsWith (testdirDirname "../escape") BASE_DIR = false ∧
    testdir (.dirN .nil) none .nil "../escape" false =
      .error ("The directory name must start with " ++ BASE_DIR) :=
  ⟨rfl, c3_sandbox_prefix_check.1 (.dirN .nil) none .nil "../escape" rfl⟩

/-! ## Claim C6 -/

/-- C6 counterexample: in the later `createFileTree` snapshot
(`src/index.ts` line 523) the type hint stats the *link path itself*
(`isDirectory(filename)`), not the target: with an existing directory `d`
as the target of a fresh symlink `base/s`, the hint passed to `symlink` is
`"file"` although the target (resolved against the link's parent) is a
directory — refuting the claimed "directory hint iff the target is a
directory" for that call site. -/
theorem c6_counterexample :
    symlinkTypeHintIdx (.dirN (.cons "d" (.dirN .nil) (.cons "base" (.dirN .nil) .nil)))
        ["base", "s"] = "file" ∧
    isDirectoryAt (.dirN (.cons "d" (.dirN .nil) (.cons "base" (.dirN .nil) .nil)))
        (resolveSegs ["base"] "../d") = true ∧
    ("file" : String) ≠ "junction" :=
  ⟨rfl, rfl, by decide⟩

/-- C6 (amended): in `createFileTree` from `src/file-tree.ts` the hint is
determined by the target: materializing a symlink entry (no original-path
marker, so the stored target is used as-is) creates at the resolved link
path a symlink whose hint is `"junction"` exactly when the target, resolved
against the link's parent directory, is an existing directory; the later
snapshot in `src/index.ts` instead stats the link path itself
(`symlinkTypeHintIdx`). -/
theorem c6_symlink_hint (w : FSNode) (path : List String) (name p : String)
    (w' : FSNode) (m : DirEntries)
    (h : createFileTree w path none (.cons name (.symlinkM p) .nil) = .ok (w', m)) :
    lookupNode w' (resolveSegs path name) =
      some (.symlinkN p
        (if isDirectoryAt w (resolveSegs (resolveSegs path name).dropLast p)
          then "junction" else "file")) := by
  simp only [createFileTree] at h
  cases hs : symlinkAt w (resolveSegs path name) p
      (if isDir w (resolveSegs path name) p then "junction" else "file") with
  | error e => rw [hs, exceptBindErr] at h; cases h
  | ok w1 =>
    rw [hs, exceptBindOk, exceptBindOk] at h
    simp only [Except.ok.injEq, Prod.mk.injEq] at h
    obtain ⟨hw, hm⟩ := h
    subst hw
    exact addEntryAt_lookup w (resolveSegs path name) _ w1 hs

theorem c6_symlink_hint_witness :
    createFileTree (.dirN (.cons "d" (.dirN .nil) (.cons "base" (.dirN .nil) .nil)))
        ["base"] none (.cons "s" (.symlinkM "../d") .nil) =
      .ok (.dirN (.cons "d" (.dirN .nil) (.cons "base"
            (.dirN (.cons "s" (.symlinkN "../d" "junction") .nil)) .nil)),
        .cons "s" (.symlinkM "../d") .nil) ∧
    lookupNode (.dirN (.cons "d" (.dirN .nil) (.cons "base"
        (.dirN (.cons "s" (.symlinkN "../d" "junction") .nil)) .nil)))
        (resolveSegs ["base"] "s") =
      some (.symlinkN "../d"
        (if isDirectoryAt (.dirN (.cons "d" (.dirN .nil) (.cons "base" (.dirN .nil) .nil)))
            (resolveSegs (resolveSegs ["base"] "s").dropLast "../d")
          then "junction" else "file")) :=
  ⟨rfl, c6_symlink_hint _ ["base"] "s" "../d" _ _ rfl⟩

/-! ## Claim C2 -/

/-- The world for the concrete C2 replay: the captured tree lived at `a/b`
(the symlink `s` pointing at `../../target`, i.e. the working-directory
file `target`), and the replay happens at `x/y/z/a/b`, three levels
deeper. -/
def c2World : FSNode :=
  .dirN (.cons "target" (.file "T")
    (.cons "x" (.dirN (.cons "y" (.dirN (.cons "z" (.dirN (.cons "a"
      (.dirN (.cons "b" (.dirN .nil) .nil)) .nil)) .nil)) .nil)) .nil))

/-- C2: re-basing a relative symlink target during replay of a mapping that
carries the original-path marker: when the write location is `k` levels
deeper than the captured location the code prepends `k` leading `../`
segments, and when it is `k` levels shallower it removes `k` leading `../`
segments (when present; the removal is JavaScript `String.replace` of the
first `"../".repeat(k)` occurrence).  In particular, a snapshot taken at
`a/b` containing the symlink `s -> ../../target` and materialized at
`x/y/z/a/b` — three levels deeper — yields the stored target
`../../../../../target`, and the resolved target denotes the same final
file `target` as the original. -/
theorem c2_symlink_rebase :
    (∀ (n k : Nat) (p : String), 0 < k →
      rebaseSymlinkTarget (n + k) n p = upsRepeat k ++ p) ∧
    (∀ (n k : Nat) (p : String), 0 < k →
      rebaseSymlinkTarget n (n + k) (upsRepeat k ++ p) = p) ∧
    (createFileTree c2World ["x", "y", "z", "a", "b"] (some "a/b")
        (.cons "s" (.symlinkM "../../target") .nil)).toOption.map
      (fun r => lookupNode r.1 ["x", "y", "z", "a", "b", "s"]) =
      some (some (.symlinkN "../../../../../target" "file")) ∧
    resolveSegs ["x", "y", "z", "a", "b"] "../../../../../target" =
      resolveSegs ["a", "b"] "../../target" := by
  refine ⟨fun n k p hk => ?_, fun n k p hk => ?_, rfl, rfl⟩
  · unfold rebaseSymlinkTarget
    rw [if_neg (by omega), if_pos (by omega)]
    congr 1
    congr 1
    omega
  · unfold rebaseSymlinkTarget
    rw [if_pos (by omega)]
    have hnk : n + k - n = k := by omega
    rw [hnk, replaceFirst_append]

theorem c2_symlink_rebase_witness :
    (0 < 3 ∧ rebaseSymlinkTarget (2 + 3) 2 "../../target" = upsRepeat 3 ++ "../../target") ∧
    (0 < 3 ∧ rebaseSymlinkTarget 2 (2 + 3) (upsRepeat 3 ++ "target") = "target") :=
  ⟨⟨by decide, c2_symlink_rebase.1 2 3 "../../target" (by decide)⟩,
   ⟨by decide, c2_symlink_rebase.2.1 2 3 "target" (by decide)⟩⟩

/-! ## Claim C8 -/

/-- C8 counterexample: the tags are independent object properties, so an
object carrying *both* private tag symbols satisfies `isSymlink` and
`isLink` simultaneously — refuting "no value satisfies both" over arbitrary
`unknown` input (the tag symbols are exported, so such a value is
constructible by callers). -/
theorem c8_counterexample :
    isSymlinkV (.objV (some .symlinkTagSym) (some .linkTagSym) none none) = true ∧
    isLinkV (.objV (some .symlinkTagSym) (some .linkTagSym) none none) = true :=
  ⟨rfl, rfl⟩

/-- C8 (amended): the classifier predicates are total over arbitrary input
and return `false` (never throwing) for `null`, `undefined`, arrays and
unrelated objects: a value that is not object-typed satisfies none of them,
an object satisfies `isSymlink` / `isLink` exactly when it holds the
respective tag symbol at the respective tag key, and the values produced by
the `symlink` / `link` constructors satisfy exactly their own predicate.
Disjointness of the two tags holds for constructor-produced markers, but
not for arbitrary objects (see the counterexample). -/
theorem c8_classifiers :
    (∀ v : JSValue, typeofIsObject v = false →
      isSymlinkV v = false ∧ isLinkV v = false ∧ hasMetadataV v = false) ∧
    (isSymlinkV .nullV = false ∧ isLinkV .nullV = false ∧
      hasMetadataV .nullV = false ∧ isPrimitiveV .nullV = true) ∧
    (∀ xs : List JSValue, isSymlinkV (.arrV xs) = false ∧ isLinkV (.arrV xs) = false ∧
      hasMetadataV (.arrV xs) = false ∧ isPrimitiveV (.arrV xs) = false) ∧
    (∀ (s l m : Option JSValue) (pp : Option String),
      (isSymlinkV (.objV s l m pp) = true ↔ s = some .symlinkTagSym) ∧
      (isLinkV (.objV s l m pp) = true ↔ l = some .linkTagSym)) ∧
    ∀ pth : String,
      isSymlinkV (symlinkJS pth) = true ∧ isLinkV (symlinkJS pth) = false ∧
      isLinkV (linkJS pth) = true ∧ isSymlinkV (linkJS pth) = false := by
  refine ⟨fun v h => ?_, ⟨rfl, rfl, rfl, rfl⟩, fun xs => ⟨rfl, rfl, rfl, rfl⟩,
    fun s l m pp => ⟨?_, ?_⟩, fun pth => ⟨rfl, rfl, rfl, rfl⟩⟩
  · simp [isSymlinkV, isLinkV, hasMetadataV, h]
  · cases s with
    | none => simp [isSymlinkV, typeofIsObject, isNull, getSymlinkProp, isTagSymlink]
    | some v =>
      cases v <;>
        simp [isSymlinkV, typeofIsObject, isNull, getSymlinkProp, isTagSymlink]
  · cases l with
    | none => simp [isLinkV, typeofIsObject, isNull, getLinkProp, isTagLink]
    | some v =>
      cases v <;> simp [isLinkV, typeofIsObject, isNull, getLinkProp, isTagLink]

theorem c8_classifiers_witness :
    (typeofIsObject (.strV "x") = false ∧
      isSymlinkV (.strV "x") = false ∧ isLinkV (.strV "x") = false ∧
      hasMetadataV (.strV "x") = false) ∧
    (isSymlinkV (.objV none none none none) = true ↔
      (none : Option JSValue) = some .symlinkTagSym) ∧
    isSymlinkV (symlinkJS "a.txt") = true :=
  ⟨⟨rfl, (c8_classifiers.1 (.strV "x") rfl).1, (c8_classifiers.1 (.strV "x") rfl).2.1,
      (c8_classifiers.1 (.strV "x") rfl).2.2⟩,
    (c8_classifiers.2.2.2.1 none none none none).1,
    (c8_classifiers.2.2.2.2 "a.txt").1⟩

/-! ## Claim C9 -/

/-- The world for the C9 counterexample: the parent directories of the
write location `.vitest-testdirs/x/y` (three levels deep) already exist. -/
def c9World : FSNode :=
  .dirN (.cons ".vitest-testdirs"
    (.dirN (.cons "x" (.dirN (.cons "y" (.dirN .nil) .nil)) .nil)) .nil)

/-- C9 counterexample: materializing a mapping that carries the
original-path marker `a/b` (two levels) at the three-level location
`.vitest-testdirs/x/y` rewrites the symlink marker's `path` in place
(`data.path = "../" + data.path`): the mapping comes back with the symlink
target `../t` instead of the original `t` — the input node was mutated
during tree construction. -/
theorem c9_counterexample :
    (createFileTree c9World [".vitest-testdirs", "x", "y"] (some "a/b")
        (.cons "s" (.symlinkM "t") .nil)).toOption.map (fun r => r.2) =
      some (.cons "s" (.symlinkM "../t") .nil) ∧
    ("../t" : String) ≠ "t" :=
  ⟨rfl, by decide⟩

/-- C9 (amended): fixture nodes are immutable during materialization
*except* the `path` field of symlink markers in mappings that carry the
hidden original-path marker, which the re-basing step rewrites in place:
whenever no node of the mapping carries the marker, `createFileTree`
returns the mapping unchanged. -/
theorem c9_no_marker_immutable : ∀ (files : DirEntries) (w : FSNode)
    (path : List String) (w' : FSNode) (m : DirEntries),
    noMarkers files = true →
    createFileTree w path none files = .ok (w', m) → m = files
  | .nil, w, path, w', m, _, h => by
    rw [createFileTree_nil] at h
    simp only [Except.ok.injEq, Prod.mk.injEq] at h
    exact h.2.symm
  | .cons name (.str s) rest, w, path, w', m, hm, h => by
    have hmr : noMarkers rest = true := by simpa [noMarkers] using hm
    simp only [createFileTree] at h
    cases h1 : mkdirp w (resolveSegs path name).dropLast with
    | error e => rw [h1, exceptBindErr] at h; cases h
    | ok w1 =>
      rw [h1, exceptBindOk] at h
      cases h2 : writeFileAt w1 (resolveSegs path name) s with
      | error e => rw [h2, exceptBindErr] at h; cases h
      | ok w2 =>
        rw [h2, exceptBindOk] at h
        cases h3 : createFileTree w2 path none rest with
        | error e => rw [h3, exceptBindErr] at h; cases h
        | ok r =>
          rw [h3, exceptBindOk] at h
          simp only [Except.ok.injEq, Prod.mk.injEq] at h
          have hr2 : r.2 = rest :=
            c9_no_marker_immutable rest w2 path r.1 r.2 hmr (by rw [h3])
          rw [← h.2, hr2]
  | .cons name (.symlinkM p) rest, w, path, w', m, hm, h => by
    have hmr : noMarkers rest = true := by simpa [noMarkers] using hm
    simp only [createFileTree] at h
    cases h1 : symlinkAt w (resolveSegs path name) p
        (if isDir w (resolveSegs path name) p then "junction" else "file") with
    | error e => rw [h1, exceptBindErr] at h; cases h
    | ok w1 =>
      rw [h1, exceptBindOk] at h
      cases h2 : createFileTree w1 path none rest with
      | error e => rw [h2, exceptBindErr] at h; cases h
      | ok r =>
        rw [h2, exceptBindOk] at h
        simp only [Except.ok.injEq, Prod.mk.injEq] at h
        have hr2 : r.2 = rest :=
          c9_no_marker_immutable rest w1 path r.1 r.2 hmr (by rw [h2])
        rw [← h.2, hr2]
  | .cons name (.linkM p) rest, w, path, w', m, hm, h => by
    have hmr : noMarkers rest = true := by simpa [noMarkers] using hm
    simp only [createFileTree] at h
    cases h1 : linkAt w (resolveSegs (resolveSegs path name).dropLast p)
        (resolveSegs path name) with
    | error e => rw [h1, exceptBindErr] at h; cases h
    | ok w1 =>
      rw [h1, exceptBindOk] at h
      cases h2 : createFileTree w1 path none rest with
      | error e => rw [h2, exceptBindErr] at h; cases h
      | ok r =>
        rw [h2, exceptBindOk] at h
        simp only [Except.ok.injEq, Prod.mk.injEq] at h
        have hr2 : r.2 = rest :=
          c9_no_marker_immutable rest w1 path r.1 r.2 hmr (by rw [h2])
        rw [← h.2, hr2]
  | .cons name (.dirM subOrig sub) rest, w, path, w', m, hm, h => by
    have hms : (subOrig == none && noMarkers sub && noMarkers rest) = true := by
      simpa [noMarkers] using hm
    simp only [Bool.and_eq_true, beq_iff_eq] at hms
    obtain ⟨⟨hso, hmsub⟩, hmr⟩ := hms
    subst hso
    simp only [createFileTree] at h
    cases h1 : mkdirp w (resolveSegs path name) with
    | error e => rw [h1, exceptBindErr] at h; cases h
    | ok w1 =>
      rw [h1, exceptBindOk] at h
      cases h2 : createFileTree w1 (resolveSegs path name) none sub with
      | error e => rw [h2, exceptBindErr] at h; cases h
      | ok rsub =>
        rw [h2, exceptBindOk] at h
        cases h3 : createFileTree rsub.1 path none rest with
        | error e => rw [h3, exceptBindErr] at h; cases h
        | ok r =>
          rw [h3, exceptBindOk] at h
          simp only [Except.ok.injEq, Prod.mk.injEq] at h
          have hsub2 : rsub.2 = sub :=
            c9_no_marker_immutable sub w1 (resolveSegs path name) rsub.1 rsub.2
              hmsub (by rw [h2])
          have hr2 : r.2 = rest :=
            c9_no_marker_immutable rest rsub.1 path r.1 r.2 hmr (by rw [h3])
          rw [← h.2, hsub2, hr2]

theorem c9_no_marker_immutable_witness :
    noMarkers (.cons "a.txt" (.str "hi")
        (.cons "sub" (.dirM none (.cons "s" (.symlinkM "t") .nil)) .nil)) = true ∧
    ∃ r, createFileTree (.dirN .nil) ["dest"] none
        (.cons "a.txt" (.str "hi")
          (.cons "sub" (.dirM none (.cons "s" (.symlinkM "t") .nil)) .nil)) = .ok r ∧
      r.2 = .cons "a.txt" (.str "hi")
        (.cons "sub" (.dirM none (.cons "s" (.symlinkM "t") .nil)) .nil) :=
  ⟨rfl, ⟨(.dirN (.cons "dest" (.dirN (.cons "a.txt" (.file "hi")
      (.cons "sub" (.dirN (.cons "s" (.symlinkN "t" "file") .nil)) .nil))) .nil),
      .cons "a.txt" (.str "hi")
        (.cons "sub" (.dirM none (.cons "s" (.symlinkM "t") .nil)) .nil)),
    rfl,
    c9_no_marker_immutable
      (.cons "a.txt" (.str "hi")
        (.cons "sub" (.dirM none (.cons "s" (.symlinkM "t") .nil)) .nil))
      (.dirN .nil) ["dest"] _ _ rfl rfl⟩⟩

/-! ## Lemmas about world updates (towards the round-trip claim C1) -/

theorem replaceEntry_self : ∀ (es : FSEntries) (k : String) (c : FSNode),
    findEntry es k = some c → replaceEntry es k c = es
  | .nil, k, c, h => by simp [findEntry] at h
  | .cons m c0 rest, k, c, h => by
    by_cases hmk : m = k
    · simp only [findEntry, hmk, if_true, Option.some.injEq] at h
      simp [replaceEntry, hmk, h]
    · simp only [findEntry, hmk, if_false, if_neg] at h
      simp [replaceEntry, hmk, replaceEntry_self rest k c h]

theorem replaceEntry_replaceEntry : ∀ (es : FSEntries) (k : String) (d d2 : FSNode),
    replaceEntry (replaceEntry es k d) k d2 = replaceEntry es k d2
  | .nil, _, _, _ => rfl
  | .cons m c0 rest, k, d, d2 => by
    by_cases hmk : m = k
    · simp [replaceEntry, hmk]
    · simp [replaceEntry, hmk, replaceEntry_replaceEntry rest k d d2]

theorem replaceEntry_append_fresh : ∀ (acc : FSEntries) (n : String) (x z : FSNode),
    findEntry acc n = none →
    replaceEntry (appendFS acc (.cons n x .nil)) n z = appendFS acc (.cons n z .nil)
  | .nil, n, x, z, _ => by simp [appendFS, replaceEntry]
  | .cons m c rest, n, x, z, h => by
    by_cases hmn : m = n
    · simp [findEntry, hmn] at h
    · simp only [findEntry, hmn, if_false, if_neg] at h
      simp [appendFS, replaceEntry, hmn, replaceEntry_append_fresh rest n x z h]

theorem setAtEntries_eq_replaceEntry : ∀ (es : FSEntries) (k : String)
    (ks : List String) (x : FSNode) (c : FSNode), findEntry es k = some c →
    setAtEntries es k ks x = replaceEntry es k (setAt c ks x)
  | .nil, k, _, _, c, h => by simp [findEntry] at h
  | .cons m c0 rest, k, ks, x, c, h => by
    by_cases hmk : m = k
    · simp only [findEntry, hmk, if_true, Option.some.injEq] at h
      simp [setAtEntries, replaceEntry, hmk, h]
    · simp only [findEntry, hmk, if_false, if_neg] at h
      simp [setAtEntries, replaceEntry, hmk,
        setAtEntries_eq_replaceEntry rest k ks x c h]

theorem setAt_nilPath (w x : FSNode) : setAt w [] x = x := by rw [setAt]

/-- The working form of `setAt` one level down: with the child present, the
update rewrites exactly that entry. -/
theorem setAt_cons (es : FSEntries) (k : String) (ks : List String) (x c : FSNode)
    (h : findEntry es k = some c) :
    setAt (.dirN es) (k :: ks) x = .dirN (replaceEntry es k (setAt c ks x)) := by
  rw [setAt, setAtEntries_eq_replaceEntry es k ks x c h]

theorem lookupNode_append : ∀ (w : FSNode) (p q : List String),
    lookupNode w (p ++ q) = (lookupNode w p).bind (fun c => lookupNode c q)
  | w, [], q => by simp [lookupNode]
  | .file c, k :: ks, q => by simp [lookupNode]
  | .symlinkN t h, k :: ks, q => by simp [lookupNode]
  | .dirN es, k :: ks, q => by
    cases hf : findEntry es k with
    | none => simp [lookupNode, hf]
    | some c => simp [lookupNode, hf, lookupNode_append c ks q]

theorem setAt_self : ∀ (w : FSNode) (p : List String) (y : FSNode),
    lookupNode w p = some y → setAt w p y = w
  | w, [], y, h => by
    simp only [lookupNode, Option.some.injEq] at h
    rw [setAt, h]
  | .file c, k :: ks, y, h => by simp [lookupNode] at h
  | .symlinkN t ht, k :: ks, y, h => by simp [lookupNode] at h
  | .dirN es, k :: ks, y, h => by
    cases hf : findEntry es k with
    | none => rw [lookupNode, hf] at h; cases h
    | some c =>
      rw [lookupNode, hf] at h
      rw [setAt_cons es k ks y c hf, setAt_self c ks y h, replaceEntry_self es k c hf]

theorem lookupNode_setAt : ∀ (w : FSNode) (p : List String) (x y : FSNode),
    lookupNode w p = some y → lookupNode (setAt w p x) p = some x
  | w, [], x, y, h => by simp [setAt, lookupNode]
  | .file c, k :: ks, x, y, h => by simp [lookupNode] at h
  | .symlinkN t ht, k :: ks, x, y, h => by simp [lookupNode] at h
  | .dirN es, k :: ks, x, y, h => by
    cases hf : findEntry es k with
    | none => rw [lookupNode, hf] at h; cases h
    | some c =>
      rw [lookupNode, hf] at h
      rw [setAt_cons es k ks x c hf, lookupNode,
        findEntry_replaceEntry_self es k c (setAt c ks x) hf]
      exact lookupNode_setAt c ks x y h

theorem setAt_setAt : ∀ (w : FSNode) (p : List String) (x y z : FSNode),
    lookupNode w p = some y → setAt (setAt w p x) p z = setAt w p z
  | w, [], x, y, z, h => by simp [setAt]
  | .file c, k :: ks, x, y, z, h => by simp [lookupNode] at h
  | .symlinkN t ht, k :: ks, x, y, z, h => by simp [lookupNode] at h
  | .dirN es, k :: ks, x, y, z, h => by
    cases hf : findEntry es k with
    | none => rw [lookupNode, hf] at h; cases h
    | some c =>
      rw [lookupNode, hf] at h
      rw [setAt_cons es k ks x c hf,
        setAt_cons (replaceEntry es k (setAt c ks x)) k ks z (setAt c ks x)
          (findEntry_replaceEntry_self es k c (setAt c ks x) hf),
        setAt_setAt c ks x y z h, replaceEntry_replaceEntry,
        setAt_cons es k ks z c hf]

theorem mkdirp_exists : ∀ (w : FSNode) (p : List String) (es0 : FSEntries),
    lookupNode w p = some (.dirN es0) → mkdirp w p = .ok w
  | w, [], es0, h => by
    simp only [lookupNode, Option.some.injEq] at h
    rw [h, mkdirp]
  | .file c, k :: ks, es0, h => by simp [lookupNode] at h
  | .symlinkN t ht, k :: ks, es0, h => by simp [lookupNode] at h
  | .dirN es, k :: ks, es0, h => by
    cases hf : findEntry es k with
    | none => rw [lookupNode, hf] at h; cases h
    | some c =>
      rw [lookupNode, hf] at h
      rw [mkdirp, hf]
      simp only [mkdirp_exists c ks es0 h, exceptBindOk,
        replaceEntry_self es k c hf]

theorem mkdirp_fresh : ∀ (w : FSNode) (p : List String) (acc : FSEntries) (n : String),
    lookupNode w p = some (.dirN acc) → findEntry acc n = none →
    mkdirp w (p ++ [n]) =
      .ok (setAt w p (.dirN (appendFS acc (.cons n (.dirN .nil) .nil))))
  | w, [], acc, n, h, hn => by
    simp only [lookupNode, Option.some.injEq] at h
    subst h
    simp only [List.nil_append, mkdirp, hn, setAt]
    rfl
  | .file c, k :: ks, acc, n, h, hn => by simp [lookupNode] at h
  | .symlinkN t ht, k :: ks, acc, n, h, hn => by simp [lookupNode] at h
  | .dirN es, k :: ks, acc, n, h, hn => by
    cases hf : findEntry es k with
    | none => rw [lookupNode, hf] at h; cases h
    | some c =>
      rw [lookupNode, hf] at h
      rw [List.cons_append, mkdirp, hf]
      simp only [mkdirp_fresh c ks acc n h hn, exceptBindOk,
        setAt_cons es k ks _ c hf]

theorem writeFileAt_fresh : ∀ (w : FSNode) (p : List String) (acc : FSEntries)
    (n s : String),
    lookupNode w p = some (.dirN acc) → findEntry acc n = none →
    writeFileAt w (p ++ [n]) s =
      .ok (setAt w p (.dirN (appendFS acc (.cons n (.file s) .nil))))
  | w, [], acc, n, s, h, hn => by
    simp only [lookupNode, Option.some.injEq] at h
    subst h
    simp only [List.nil_append, writeFileAt, hn, setAt]
  | .file c, k :: ks, acc, n, s, h, hn => by simp [lookupNode] at h
  | .symlinkN t ht, k :: ks, acc, n, s, h, hn => by simp [lookupNode] at h
  | .dirN es, k :: ks, acc, n, s, h, hn => by
    cases hf : findEntry es k with
    | none => rw [lookupNode, hf] at h; cases h
    | some c =>
      rw [lookupNode, hf] at h
      cases hks : ks ++ [n] with
      | nil => exact absurd hks (by simp)
      | cons k' ks' =>
        rw [List.cons_append, hks, writeFileAt, hf, ← hks]
        simp only [writeFileAt_fresh c ks acc n s h hn, exceptBindOk,
          setAt_cons es k ks _ c hf]

theorem setAt_deep : ∀ (w : FSNode) (p : List String) (acc : FSEntries)
    (n : String) (x z : FSNode),
    lookupNode w p = some (.dirN acc) → findEntry acc n = none →
    setAt (setAt w p (.dirN (appendFS acc (.cons n x .nil)))) (p ++ [n]) z =
      setAt w p (.dirN (appendFS acc (.cons n z .nil)))
  | w, [], acc, n, x, z, h, hn => by
    rw [List.nil_append, setAt_nilPath, setAt_nilPath,
      setAt_cons (appendFS acc (.cons n x .nil)) n [] z x
        (findEntry_append_self acc n x hn),
      setAt_nilPath, replaceEntry_append_fresh acc n x z hn]
  | .file c, k :: ks, acc, n, x, z, h, hn => by simp [lookupNode] at h
  | .symlinkN t ht, k :: ks, acc, n, x, z, h, hn => by simp [lookupNode] at h
  | .dirN es, k :: ks, acc, n, x, z, h, hn => by
    cases hf : findEntry es k with
    | none => rw [lookupNode, hf] at h; cases h
    | some c =>
      rw [lookupNode, hf] at h
      rw [setAt_cons es k ks _ c hf, List.cons_append,
        setAt_cons (replaceEntry es k (setAt c ks (.dirN (appendFS acc (.cons n x .nil)))))
          k (ks ++ [n]) z _
          (findEntry_replaceEntry_self es k c _ hf),
        setAt_deep c ks acc n x z h hn, replaceEntry_replaceEntry,
        setAt_cons es k ks _ c hf]

theorem lookupNode_deep (w : FSNode) (p : List String) (acc : FSEntries)
    (n : String) (x : FSNode)
    (h : lookupNode w p = some (.dirN acc)) (hn : findEntry acc n = none) :
    lookupNode (setAt w p (.dirN (appendFS acc (.cons n x .nil)))) (p ++ [n]) =
      some x := by
  rw [lookupNode_append, lookupNode_setAt w p _ _ h]
  simp [lookupNode, findEntry_append_self acc n x hn]

theorem appendFS_nil : ∀ es : FSEntries, appendFS es .nil = es
  | .nil => rfl
  | .cons n c rest => by rw [appendFS, appendFS_nil rest]

theorem appendFS_cons_append : ∀ (acc : FSEntries) (n : String) (x : FSNode)
    (y : FSEntries),
    appendFS (appendFS acc (.cons n x .nil)) y = appendFS acc (.cons n x y)
  | .nil, n, x, y => by simp [appendFS]
  | .cons m c rest, n, x, y => by
    simp [appendFS, appendFS_cons_append rest n x y]

theorem findEntry_append_none : ∀ (acc : FSEntries) (m n : String) (x : FSNode),
    findEntry acc m = none → m ≠ n →
    findEntry (appendFS acc (.cons n x .nil)) m = none
  | .nil, m, n, x, _, hmn => by
    simp only [appendFS, findEntry]
    rw [if_neg (fun hh => hmn hh.symm)]
  | .cons m0 c rest, m, n, x, h, hmn => by
    by_cases hm0 : m0 = m
    · simp [findEntry, hm0] at h
    · simp only [findEntry, hm0, if_false, if_neg] at h
      simp only [appendFS, findEntry, hm0, if_false, if_neg]
      exact findEntry_append_none rest m n x h hmn

theorem hasNameD_head (name : String) (d : DirContent) (rest : DirEntries) :
    hasNameD (.cons name d rest) name = true := by
  simp [hasNameD, findEntryD]

theorem hasNameD_cons (name : String) (d : DirContent) (rest : DirEntries)
    (m : String) (h : hasNameD rest m = true) :
    hasNameD (.cons name d rest) m = true := by
  by_cases hnm : name = m
  · simp [hasNameD, findEntryD, hnm]
  · simpa [hasNameD, findEntryD, hnm] using h

theorem resolveSegs_validName (p : List String) (n : String)
    (h : validName n = true) : resolveSegs p n = p ++ [n] := by
  unfold validName at h
  simp only [Bool.and_eq_true, beq_iff_eq, bne_iff_ne, ne_eq] at h
  obtain ⟨⟨⟨h1, h2⟩, h3⟩, h4⟩ := h
  unfold resolveSegs
  rw [h1]
  simp [h2, h3, h4]

/-- The central materialization lemma: on a files-only mapping with valid,
fresh names, `createFileTree` succeeds and extends the destination
directory with exactly the tree the mapping denotes (in mapping order),
leaving the rest of the world untouched (the result is a `setAt` at the
destination) and returning the mapping unchanged. -/
theorem createFileTree_builds : ∀ (ts : DirEntries) (w : FSNode)
    (dest : List String) (orig : Option String) (acc : FSEntries),
    lookupNode w dest = some (.dirN acc) →
    filesOnlyMap ts = true → validNamesMap ts = true →
    (∀ m, hasNameD ts m = true → findEntry acc m = none) →
    createFileTree w dest orig ts =
      .ok (setAt w dest (.dirN (appendFS acc (buildEntries ts))), ts)
  | .nil, w, dest, orig, acc, hW, _, _, _ => by
    rw [createFileTree_nil, buildEntries, appendFS_nil, setAt_self w dest _ hW]
  | .cons name (.symlinkM p) rest, w, dest, orig, acc, hW, hf, hv, hfresh => by
    simp [filesOnlyMap] at hf
  | .cons name (.linkM p) rest, w, dest, orig, acc, hW, hf, hv, hfresh => by
    simp [filesOnlyMap] at hf
  | .cons name (.str s) rest, w, dest, orig, acc, hW, hf, hv, hfresh => by
    have hfr : filesOnlyMap rest = true := by simpa [filesOnlyMap] using hf
    have hv' := hv
    simp only [validNamesMap, Bool.and_eq_true] at hv'
    obtain ⟨⟨⟨hvn, hvnone⟩, -⟩, hvr⟩ := hv'
    have hres : resolveSegs dest name = dest ++ [name] :=
      resolveSegs_validName dest name hvn
    have hfname : findEntry acc name = none :=
      hfresh name (hasNameD_head name (.str s) rest)
    have hw2 : writeFileAt w (dest ++ [name]) s =
        .ok (setAt w dest (.dirN (appendFS acc (.cons name (.file s) .nil)))) :=
      writeFileAt_fresh w dest acc name s hW hfname
    have hlook2 : lookupNode
        (setAt w dest (.dirN (appendFS acc (.cons name (.file s) .nil)))) dest =
        some (.dirN (appendFS acc (.cons name (.file s) .nil))) :=
      lookupNode_setAt w dest _ _ hW
    have hfresh2 : ∀ m, hasNameD rest m = true →
        findEntry (appendFS acc (.cons name (.file s) .nil)) m = none := by
      intro m hm
      have hmne : m ≠ name := by
        intro hcontra
        subst hcontra
        simp only [hasNameD, Option.isSome_iff_exists] at hm
        obtain ⟨v, hv2⟩ := hm
        rw [hv2] at hvnone
        simp at hvnone
      exact findEntry_append_none acc m name _
        (hfresh m (hasNameD_cons name (.str s) rest m hm)) hmne
    have hrec := createFileTree_builds rest
      (setAt w dest (.dirN (appendFS acc (.cons name (.file s) .nil))))
      dest orig (appendFS acc (.cons name (.file s) .nil))
      hlook2 hfr hvr hfresh2
    simp only [createFileTree, hres, List.dropLast_concat,
      mkdirp_exists w dest acc hW, exceptBindOk, hw2, hrec]
    rw [setAt_setAt w dest _ _ _ hW, appendFS_cons_append]
    rfl
  | .cons name (.dirM subOrig sub) rest, w, dest, orig, acc, hW, hf, hv, hfresh => by
    have hf' := hf
    simp only [filesOnlyMap, Bool.and_eq_true] at hf'
    obtain ⟨hfsub, hfr⟩ := hf'
    have hv' := hv
    simp only [validNamesMap, Bool.and_eq_true] at hv'
    obtain ⟨⟨⟨hvn, hvnone⟩, hvsub⟩, hvr⟩ := hv'
    have hres : resolveSegs dest name = dest ++ [name] :=
      resolveSegs_validName dest name hvn
    have hfname : findEntry acc name = none :=
      hfresh name (hasNameD_head name (.dirM subOrig sub) rest)
    have hmk : mkdirp w (dest ++ [name]) =
        .ok (setAt w dest (.dirN (appendFS acc (.cons name (.dirN .nil) .nil)))) :=
      mkdirp_fresh w dest acc name hW hfname
    have hlooksub : lookupNode
        (setAt w dest (.dirN (appendFS acc (.cons name (.dirN .nil) .nil))))
        (dest ++ [name]) = some (.dirN .nil) :=
      lookupNode_deep w dest acc name (.dirN .nil) hW hfname
    have hrecsub := createFileTree_builds sub
      (setAt w dest (.dirN (appendFS acc (.cons name (.dirN .nil) .nil))))
      (dest ++ [name]) subOrig .nil hlooksub hfsub hvsub
      (fun m _ => rfl)
    have hdeep : setAt
        (setAt w dest (.dirN (appendFS acc (.cons name (.dirN .nil) .nil))))
        (dest ++ [name]) (.dirN (appendFS .nil (buildEntries sub))) =
        setAt w dest (.dirN (appendFS acc
          (.cons name (.dirN (appendFS .nil (buildEntries sub))) .nil))) :=
      setAt_deep w dest acc name (.dirN .nil) _ hW hfname
    have hlook2 : lookupNode (setAt w dest (.dirN (appendFS acc
        (.cons name (.dirN (appendFS .nil (buildEntries sub))) .nil)))) dest =
        some (.dirN (appendFS acc
          (.cons name (.dirN (appendFS .nil (buildEntries sub))) .nil))) :=
      lookupNode_setAt w dest _ _ hW
    have hfresh2 : ∀ m, hasNameD rest m = true →
        findEntry (appendFS acc
          (.cons name (.dirN (appendFS .nil (buildEntries sub))) .nil)) m = none := by
      intro m hm
      have hmne : m ≠ name := by
        intro hcontra
        subst hcontra
        simp only [hasNameD, Option.isSome_iff_exists] at hm
        obtain ⟨v, hv2⟩ := hm
        rw [hv2] at hvnone
        simp at hvnone
      exact findEntry_append_none acc m name _
        (hfresh m (hasNameD_cons name (.dirM subOrig sub) rest m hm)) hmne
    have hrec := createFileTree_builds rest
      (setAt w dest (.dirN (appendFS acc
        (.cons name (.dirN (appendFS .nil (buildEntries sub))) .nil))))
      dest orig
      (appendFS acc (.cons name (.dirN (appendFS .nil (buildEntries sub))) .nil))
      hlook2 hfr hvr hfresh2
    simp only [createFileTree, hres, hmk, exceptBindOk, hrecsub, hdeep, hrec]
    rw [setAt_setAt w dest _ _ _ hW, appendFS_cons_append]
    rfl

theorem findEntryD_processEntries_none : ∀ (es : FSEntries) (p n : String),
    findEntry es n = none → findEntryD (processEntries p [] es) n = none
  | .nil, _, _, _ => rfl
  | .cons m (.file c) rest, p, n, h => by
    by_cases hmn : m = n
    · simp [findEntry, hmn] at h
    · simp only [findEntry, hmn, if_false, if_neg] at h
      simp [processEntries, findEntryD, hmn,
        findEntryD_processEntries_none rest p n h]
  | .cons m (.symlinkN t ht) rest, p, n, h => by
    by_cases hmn : m = n
    · simp [findEntry, hmn] at h
    · simp only [findEntry, hmn, if_false, if_neg] at h
      simp [processEntries, findEntryD, hmn,
        findEntryD_processEntries_none rest p n h]
  | .cons m (.dirN sub) rest, p, n, h => by
    by_cases hmn : m = n
    · simp [findEntry, hmn] at h
    · simp only [findEntry, hmn, if_false, if_neg] at h
      simp [processEntries, findEntryD, hmn,
        findEntryD_processEntries_none rest p n h]

/-- Snapshotting a files-only directory with valid names (with the default
options) yields a files-only mapping with the same valid names that denotes
exactly the snapshotted tree. -/
theorem snap_props : ∀ (es : FSEntries) (p : String),
    filesOnlyFS es = true → validNamesFS es = true →
    buildEntries (processEntries p [] es) = es ∧
    filesOnlyMap (processEntries p [] es) = true ∧
    validNamesMap (processEntries p [] es) = true
  | .nil, _, _, _ => ⟨rfl, rfl, rfl⟩
  | .cons n (.symlinkN t ht) rest, p, hf, hv => by
    simp [filesOnlyFS] at hf
  | .cons n (.file c) rest, p, hf, hv => by
    have hfr : filesOnlyFS rest = true := by simpa [filesOnlyFS] using hf
    have hv' := hv
    simp only [validNamesFS, Bool.and_eq_true] at hv'
    obtain ⟨⟨⟨hvn, hvnone⟩, -⟩, hvr⟩ := hv'
    obtain ⟨hb, hfm, hvm⟩ := snap_props rest p hfr hvr
    have hnone : findEntryD (processEntries p [] rest) n = none :=
      findEntryD_processEntries_none rest p n (Option.isNone_iff_eq_none.mp hvnone)
    refine ⟨?_, ?_, ?_⟩
    · simp [processEntries, buildEntries, hb]
    · simp [processEntries, filesOnlyMap, hfm]
    · simp [processEntries, validNamesMap, hvn, hvm, hnone]
  | .cons n (.dirN sub) rest, p, hf, hv => by
    have hf' := hf
    simp only [filesOnlyFS, Bool.and_eq_true] at hf'
    obtain ⟨hfsub, hfr⟩ := hf'
    have hv' := hv
    simp only [validNamesFS, Bool.and_eq_true] at hv'
    obtain ⟨⟨⟨hvn, hvnone⟩, hvsub⟩, hvr⟩ := hv'
    obtain ⟨hbs, hfms, hvms⟩ := snap_props sub (p ++ "/" ++ n) hfsub hvsub
    obtain ⟨hb, hfm, hvm⟩ := snap_props rest p hfr hvr
    have hnone : findEntryD (processEntries p [] rest) n = none :=
      findEntryD_processEntries_none rest p n (Option.isNone_iff_eq_none.mp hvnone)
    refine ⟨?_, ?_, ?_⟩
    · simp [processEntries, buildEntries, hb, hbs]
    · simp [processEntries, filesOnlyMap, hfm, hfms]
    · simp [processEntries, validNamesMap, hvn, hvm, hvms, hnone]

theorem overrideFrom_nil : ∀ base : DirEntries, overrideFrom .nil base = base
  | .nil => rfl
  | .cons n c rest => by
    simp [overrideFrom, findEntryD, overrideFrom_nil rest]

theorem appendD_nil : ∀ x : DirEntries, appendD x .nil = x
  | .nil => rfl
  | .cons n c rest => by rw [appendD, appendD_nil rest]

theorem mergeSpread_nil (base : DirEntries) : mergeSpread base .nil = base := by
  unfold mergeSpread
  rw [overrideFrom_nil, removeKeysOf, appendD_nil]

/-! ## Claim C1 -/

/-- C1: the round trip.  For every directory tree containing only regular
files with text content and ordinary entry names, materializing the
snapshot (`createFileTree` applied to the mapping produced by
`fromFileSystem` / `processDirectory` with default options) at a fresh
destination produces a tree identical to the source: the resulting world
holds, at the destination, exactly the snapshotted directory — contents,
names and order included. -/
theorem c1_roundtrip_materialize_snapshot (w : FSNode) (srcPath : String)
    (es : FSEntries) (wd : FSNode) (dest : List String) (orig : Option String)
    (ents : DirEntries)
    (hsrc : lookupNode w (resolveSegs [] srcPath) = some (.dirN es))
    (hfo : filesOnlyFS es = true) (hvn : validNamesFS es = true)
    (hdest : lookupNode wd dest = some (.dirN .nil))
    (hsnap : fromFileSystem w srcPath [] .nil = (orig, ents)) :
    ∃ w', createFileTree wd dest orig ents = .ok (w', ents) ∧
      lookupNode w' dest = some (.dirN es) := by
  unfold fromFileSystem at hsnap
  rw [hsrc] at hsnap
  simp only [processDirectory, mergeSpread_nil, Prod.mk.injEq] at hsnap
  obtain ⟨-, hents⟩ := hsnap
  obtain ⟨hb, hfm, hvm⟩ := snap_props es srcPath hfo hvn
  subst hents
  refine ⟨setAt wd dest (.dirN es), ?_, ?_⟩
  · have := createFileTree_builds (processEntries srcPath [] es) wd dest orig
      .nil hdest hfm hvm (fun m _ => rfl)
    rw [this]
    rw [show appendFS .nil (buildEntries (processEntries srcPath [] es)) =
      buildEntries (processEntries srcPath [] es) from rfl, hb]
  · rw [show (.dirN es : FSNode) =
        (.dirN (appendFS .nil (buildEntries (processEntries srcPath [] es)))) from
        by rw [show appendFS .nil (buildEntries (processEntries srcPath [] es)) =
          buildEntries (processEntries srcPath [] es) from rfl, hb]] at *
    exact lookupNode_setAt wd dest _ _ hdest

theorem c1_roundtrip_materialize_snapshot_witness :
    lookupNode
        (.dirN (.cons "fixture" (.dirN (.cons "a.txt" (.file "A")
          (.cons "sub" (.dirN (.cons "b.txt" (.file "B")
            (.cons "empty" (.dirN .nil) .nil))) .nil))) .nil))
        (resolveSegs [] "fixture") =
      some (.dirN (.cons "a.txt" (.file "A")
        (.cons "sub" (.dirN (.cons "b.txt" (.file "B")
          (.cons "empty" (.dirN .nil) .nil))) .nil))) ∧
    ∃ w', createFileTree (.dirN (.cons "dest" (.dirN .nil) .nil)) ["dest"]
        (fromFileSystem
          (.dirN (.cons "fixture" (.dirN (.cons "a.txt" (.file "A")
            (.cons "sub" (.dirN (.cons "b.txt" (.file "B")
              (.cons "empty" (.dirN .nil) .nil))) .nil))) .nil))
          "fixture" [] .nil).1
        (fromFileSystem
          (.dirN (.cons "fixture" (.dirN (.cons "a.txt" (.file "A")
            (.cons "sub" (.dirN (.cons "b.txt" (.file "B")
              (.cons "empty" (.dirN .nil) .nil))) .nil))) .nil))
          "fixture" [] .nil).2 =
        .ok (w',
          (fromFileSystem
            (.dirN (.cons "fixture" (.dirN (.cons "a.txt" (.file "A")
              (.cons "sub" (.dirN (.cons "b.txt" (.file "B")
                (.cons "empty" (.dirN .nil) .nil))) .nil))) .nil))
            "fixture" [] .nil).2) ∧
      lookupNode w' ["dest"] =
        some (.dirN (.cons "a.txt" (.file "A")
          (.cons "sub" (.dirN (.cons "b.txt" (.file "B")
            (.cons "empty" (.dirN .nil) .nil))) .nil))) :=
  ⟨rfl,
    c1_roundtrip_materialize_snapshot
      (.dirN (.cons "fixture" (.dirN (.cons "a.txt" (.file "A")
        (.cons "sub" (.dirN (.cons "b.txt" (.file "B")
          (.cons "empty" (.dirN .nil) .nil))) .nil))) .nil))
      "fixture"
      (.cons "a.txt" (.file "A")
        (.cons "sub" (.dirN (.cons "b.txt" (.file "B")
          (.cons "empty" (.dirN .nil) .nil))) .nil))
      (.dirN (.cons "dest" (.dirN .nil) .nil)) ["dest"] _ _
      rfl rfl rfl rfl rfl⟩

end VitestTestdirs
